import Mathlib

/-!
Formal model of the binance_kline_bot repository: the stop-loss trigger engine
(src/stop_loss_manager.py) and the exchange client (src/binance_client.py).

Python dictionaries keyed by strings are modelled as association lists
(`List (String × α)`) with `dictGet` (dict.get), `dictUpsert` (dict[k] = v,
preserving insertion order with last-write-wins semantics) and `eraseKey`
(dict.pop).  Python floats carrying prices and amounts are modelled as `ℚ`;
millisecond timestamps as `ℕ`.  Effectful calls (REST requests, callbacks,
database writes) are modelled by passing their outcome in and returning the
emitted events / performed writes as data.
-/

/-- Python dict.get: first binding for the key, scanning left to right.
All dict models below keep at most one binding per key. -/
def dictGet {α : Type} (k : String) : List (String × α) → Option α
  | [] => none
  | (k', v) :: rest => if k = k' then some v else dictGet k rest

/-- Python dict assignment d[k] = v: replace the binding in place if the key is
present (keeping its slot, as Python dicts keep insertion order), else append. -/
def dictUpsert {α : Type} (k : String) (v : α) : List (String × α) → List (String × α)
  | [] => [(k, v)]
  | (k', v') :: rest => if k' = k then (k, v) :: rest else (k', v') :: dictUpsert k v rest

/-- Python dict.pop(k, None): drop the binding for the key. -/
def eraseKey {α : Type} (k : String) (ps : List (String × α)) : List (String × α) :=
  ps.filter (fun p => p.1 ≠ k)

theorem dictGet_dictUpsert {α : Type} (k v key) (d : List (String × α)) :
    dictGet key (dictUpsert k v d) = if key = k then some v else dictGet key d := by
  induction d with
  | nil => simp [dictUpsert, dictGet]
  | cons hd tl ih =>
    obtain ⟨k', v'⟩ := hd
    by_cases h1 : k' = k
    · by_cases h2 : key = k
      · simp [dictUpsert, dictGet, h1, h2]
      · have h3 : ¬ key = k' := fun hh => h2 (hh.trans h1)
        simp [dictUpsert, dictGet, h1, h2, h3]
    · by_cases h2 : key = k'
      · have h3 : ¬ key = k := fun hh => h1 (h2.symm.trans hh)
        simp [dictUpsert, dictGet, h1, h2, h3]
      · simp [dictUpsert, dictGet, h1, h2, ih]

theorem mem_dictUpsert {α : Type} (k : String) (v : α) (d : List (String × α)) (e : String × α)
    (h : e ∈ dictUpsert k v d) : e = (k, v) ∨ e ∈ d := by
  induction d with
  | nil => simpa [dictUpsert] using h
  | cons hd tl ih =>
    obtain ⟨k', v'⟩ := hd
    by_cases h1 : k' = k
    · subst h1
      simp only [dictUpsert, if_pos rfl] at h
      rcases List.mem_cons.mp h with h2 | h2
      · exact Or.inl h2
      · exact Or.inr (List.mem_cons_of_mem _ h2)
    · simp only [dictUpsert, if_neg h1] at h
      rcases List.mem_cons.mp h with h2 | h2
      · exact Or.inr (h2 ▸ List.mem_cons_self _ _)
      · rcases ih h2 with h3 | h3
        · exact Or.inl h3
        · exact Or.inr (List.mem_cons_of_mem _ h3)

/-- On a dict whose keys are distinct, membership of a binding determines lookup. -/
theorem dictGet_eq_of_mem_nodup {α : Type} (d : List (String × α)) (k : String) (v : α)
    (hnd : (d.map Prod.fst).Nodup) (hm : (k, v) ∈ d) : dictGet k d = some v := by
  induction d with
  | nil => cases hm
  | cons hd tl ih =>
    obtain ⟨k', v'⟩ := hd
    simp only [List.map_cons, List.nodup_cons] at hnd
    rcases List.mem_cons.mp hm with h2 | h2
    · simp only [Prod.mk.injEq] at h2
      obtain ⟨h3, h4⟩ := h2
      subst h3
      subst h4
      simp [dictGet]
    · have hk : k ≠ k' := by
        intro h
        subst h
        exact hnd.1 (List.mem_map.mpr ⟨(k, v), h2, rfl⟩)
      simp [dictGet, if_neg hk, ih hnd.2 h2]

/-- On a dict whose keys are distinct, the sublist of bindings at a present key
is exactly that single binding. -/
theorem filter_key_eq_singleton {α : Type} [DecidableEq α] (d : List (String × α)) (k : String)
    (v : α) (hnd : (d.map Prod.fst).Nodup) (hm : (k, v) ∈ d) :
    d.filter (fun p => p.1 = k) = [(k, v)] := by
  induction d with
  | nil => cases hm
  | cons hd tl ih =>
    obtain ⟨k', v'⟩ := hd
    simp only [List.map_cons, List.nodup_cons] at hnd
    rcases List.mem_cons.mp hm with h2 | h2
    · simp only [Prod.mk.injEq] at h2
      obtain ⟨h3, h4⟩ := h2
      subst h3
      subst h4
      have : tl.filter (fun p => p.1 = k) = [] := by
        rw [List.filter_eq_nil_iff]
        intro a ha
        simp only [decide_eq_true_eq]
        intro hak
        exact hnd.1 (List.mem_map.mpr ⟨a, ha, hak⟩)
      simp [List.filter_cons, this]
    · have hk : k' ≠ k := by
        intro h
        subst h
        exact hnd.1 (List.mem_map.mpr ⟨(k', v), h2, rfl⟩)
      simp [List.filter_cons, hk, ih hnd.2 h2]

/-- Position direction under the dual-side position mode ('LONG' / 'SHORT'). -/
inductive Side
  | LONG
  | SHORT
deriving DecidableEq, Repr

/-- The string the source uses for a side. -/
def Side.str : Side → String
  | .LONG => "LONG"
  | .SHORT => "SHORT"

/-- Composite cache key f-string from the source: f"{symbol}_{side}". -/
def positionKey (symbol : String) (side : Side) : String :=
  symbol ++ "_" ++ side.str

/-- Market-order direction (BUY / SELL). -/
inductive OrderSide
  | BUY
  | SELL
deriving DecidableEq, Repr

/-- Exchange order statuses as returned by the REST order endpoint. -/
inductive OrderStatus
  | NEW
  | PARTIALLY_FILLED
  | FILLED
  | CANCELED
  | EXPIRED
  | REJECTED
deriving DecidableEq, Repr

/-- One entry of the list returned by BinanceClient.get_positions
(src/binance_client.py, lines 194-202): position_amt is abs(positionAmt). -/
structure Position where
  symbol : String
  side : Side
  position_amt : ℚ
  entry_price : ℚ
  unrealized_pnl : ℚ
  leverage : ℤ
  liquidation_price : ℚ
deriving DecidableEq, Repr

/-- A persisted stop-loss rule (database.StopLossOrder, src/database.py). -/
structure StopLossOrder where
  id : ℕ
  symbol : String
  side : Side
  stop_price : ℚ
  timeframe : String
  quantity : Option ℚ
deriving DecidableEq, Repr

/-- Python abs() on a rational amount. -/
def pyAbs (q : ℚ) : ℚ := if q < 0 then -q else q

/-- StopLossManager._check_stop_loss_trigger (src/stop_loss_manager.py, lines 320-348).
Returns `some position` when the trigger fires and a market close is attempted
(the source then calls _execute_stop_loss with that position), `none` when the
position is absent from the cache or the price comparison does not hold. -/
def check_stop_loss_trigger (current_positions : List (String × Position))
    (order : StopLossOrder) (current_price : ℚ) : Option Position :=
  match dictGet (positionKey order.symbol order.side) current_positions with
  | none => none
  | some position =>
    let triggered : Bool :=
      match order.side with
      | .LONG => decide (current_price ≤ order.stop_price)
      | .SHORT => decide (current_price ≥ order.stop_price)
    if triggered then some position else none

/-- The dict returned by BinanceClient.place_market_order
(src/binance_client.py, lines 255-262). -/
structure OrderResult where
  order_id : ℕ
  status : OrderStatus
  executed_qty : ℚ
  price : ℚ
deriving DecidableEq, Repr

/-- The 'action' field of the payload passed to the on_stop_loss_triggered
callback in src/stop_loss_manager.py. -/
inductive StopLossAction
  | executed
  | failed
  | cleaned
deriving DecidableEq, Repr

/-- Net effect of one StopLossManager._execute_stop_loss call. -/
structure ExecOutcome where
  close_side : OrderSide
  position_side : Side
  quantity : ℚ
  deleted : Bool
  action : StopLossAction
deriving DecidableEq, Repr

/-- StopLossManager._execute_stop_loss (src/stop_loss_manager.py, lines 350-410).
`result` is the outcome of the place_market_order request: `none` models the
request raising (the except branch), `some r` the returned order dict.
`deleted` records whether database.delete_stop_loss ran; `action` is the event
delivered to on_stop_loss_triggered. -/
def execute_stop_loss (order : StopLossOrder) (position : Position)
    (result : Option OrderResult) : ExecOutcome :=
  let side : OrderSide := if order.side = .LONG then .SELL else .BUY
  let position_side := order.side
  -- Python truthiness: `order.quantity if order.quantity else position['position_amt']`
  -- falls back to the position size both for None and for a zero quantity.
  let quantity :=
    match order.quantity with
    | none => position.position_amt
    | some q => if q = 0 then position.position_amt else q
  match result with
  | none => ⟨side, position_side, quantity, false, .failed⟩
  | some r =>
    let deleted : Bool :=
      if r.status = .FILLED then true
      else if r.status = .NEW ∨ r.status = .PARTIALLY_FILLED then true
      else false
    ⟨side, position_side, quantity, deleted, .executed⟩

/-- C1: For every stop rule evaluated against a qualifying closed candle whose
(instrument, side) position is present in the position cache, the rule triggers
(a market close is attempted) if and only if the rule's side is LONG and the
candle's close price is less than or equal to the stop price, or the rule's side
is SHORT and the close price is greater than or equal to the stop price; a rule
whose comparison does not hold is left untouched. -/
theorem C1_trigger_iff_price_comparison (cache : List (String × Position))
    (order : StopLossOrder) (price : ℚ) (pos : Position)
    (h : dictGet (positionKey order.symbol order.side) cache = some pos) :
    check_stop_loss_trigger cache order price = some pos ↔
      (order.side = .LONG ∧ price ≤ order.stop_price) ∨
      (order.side = .SHORT ∧ order.stop_price ≤ price) := by
  cases hs : order.side
  case LONG =>
    rw [hs] at h
    by_cases hp : price ≤ order.stop_price
    · simp [check_stop_loss_trigger, h, hs, hp]
    · simp [check_stop_loss_trigger, h, hs, hp]
  case SHORT =>
    rw [hs] at h
    by_cases hp : order.stop_price ≤ price
    · simp [check_stop_loss_trigger, h, hs, hp]
    · simp [check_stop_loss_trigger, h, hs, hp]

/-- Witness for C1 at a concrete input: a LONG rule with stop 100 against a
candle closing at 99, with the position cached. -/
theorem C1_trigger_iff_price_comparison_witness :
    check_stop_loss_trigger
      [(positionKey "BTCUSDT" Side.LONG, ⟨"BTCUSDT", Side.LONG, 1, 50, 0, 10, 20⟩)]
      ⟨1, "BTCUSDT", Side.LONG, 100, "15m", none⟩ 99 =
      some ⟨"BTCUSDT", Side.LONG, 1, 50, 0, 10, 20⟩ :=
  (C1_trigger_iff_price_comparison _ _ _ _ (by decide)).mpr (Or.inl ⟨rfl, by decide⟩)

/-- C2 counterexample: a market close returning status REJECTED leaves the rule
in place (deleted = false) but the event delivered to on_stop_loss_triggered is
the *executed* action (src/stop_loss_manager.py, lines 393-400 run on this path),
not the *failed* action the claim requires. -/
theorem C2_rejected_status_counterexample :
    (execute_stop_loss ⟨1, "BTCUSDT", Side.LONG, 100, "15m", none⟩
        ⟨"BTCUSDT", Side.LONG, 1, 50, 0, 10, 20⟩
        (some ⟨7, OrderStatus.REJECTED, 0, 0⟩)).deleted = false ∧
    (execute_stop_loss ⟨1, "BTCUSDT", Side.LONG, 100, "15m", none⟩
        ⟨"BTCUSDT", Side.LONG, 1, 50, 0, 10, 20⟩
        (some ⟨7, OrderStatus.REJECTED, 0, 0⟩)).action = StopLossAction.executed ∧
    StopLossAction.executed ≠ StopLossAction.failed := by
  refine ⟨rfl, rfl, by decide⟩

/-- C2 amended: the persisted rule is deleted exactly when the returned order
status is FILLED, NEW, or PARTIALLY_FILLED; for any other returned status or a
request failure the rule remains for retry — but a *failed* event is emitted
only when the request itself fails; a returned abnormal status still emits an
*executed* event carrying the result. -/
theorem C2_delete_iff_fill_like_status (order : StopLossOrder) (position : Position)
    (result : Option OrderResult) :
    ((execute_stop_loss order position result).deleted = true ↔
      ∃ r, result = some r ∧
        (r.status = OrderStatus.FILLED ∨ r.status = OrderStatus.NEW ∨
         r.status = OrderStatus.PARTIALLY_FILLED)) ∧
    ((execute_stop_loss order position result).action = StopLossAction.failed ↔
      result = none) := by
  cases result with
  | none => simp [execute_stop_loss]
  | some r =>
    cases hs : r.status <;> simp [execute_stop_loss, hs]

/-- C4 counterexample: the pre-execution position check in
StopLossManager._check_stop_loss_trigger consults only the in-memory cache
self.current_positions.  At this concrete input the live position snapshot is
empty (the position has already closed remotely), the cache is stale and still
holds the position, the LONG trigger condition holds at close 99 against stop
100 — and the market close is attempted anyway (result is `some`), so order
placement is not prevented. -/
theorem C4_stale_cache_counterexample :
    dictGet (positionKey "BTCUSDT" Side.LONG) ([] : List (String × Position)) = none ∧
    check_stop_loss_trigger
      [(positionKey "BTCUSDT" Side.LONG, ⟨"BTCUSDT", Side.LONG, 1, 50, 0, 10, 20⟩)]
      ⟨1, "BTCUSDT", Side.LONG, 100, "15m", none⟩ 99 =
      some ⟨"BTCUSDT", Side.LONG, 1, 50, 0, 10, 20⟩ := by
  exact ⟨rfl, by decide⟩

/-- C4 amended: the pre-execution position check reads the in-memory cache, not
the live account state; it prevents order placement exactly in the case where
the (instrument, side) key is already absent from the cache.  When the cache is
stale and still contains a remotely closed position, the order is still placed. -/
theorem C4_absent_cache_key_prevents_order (cache : List (String × Position))
    (order : StopLossOrder) (price : ℚ)
    (h : dictGet (positionKey order.symbol order.side) cache = none) :
    check_stop_loss_trigger cache order price = none := by
  simp [check_stop_loss_trigger, h]

/-- Witness for C4 amended: empty cache, no order placed. -/
theorem C4_absent_cache_key_prevents_order_witness :
    check_stop_loss_trigger [] ⟨1, "BTCUSDT", Side.LONG, 100, "15m", none⟩ 99 = none :=
  C4_absent_cache_key_prevents_order [] ⟨1, "BTCUSDT", Side.LONG, 100, "15m", none⟩ 99 rfl

/-- One entry of the list returned by BinanceClient.get_kline_data
(src/binance_client.py, lines 276-284).  Times are millisecond timestamps. -/
structure Kline where
  open_time : ℕ
  open_price : ℚ
  high : ℚ
  low : ℚ
  close : ℚ
  volume : ℚ
  close_time : ℕ
deriving DecidableEq, Repr

/-- Composite guard key f-string from the source: f"{symbol}_{timeframe}"
(src/stop_loss_manager.py, lines 262 and 287).  Note it omits the side. -/
def klineKey (symbol timeframe : String) : String :=
  symbol ++ "_" ++ timeframe

/-- Net effect of one iteration of the while-loop body of
StopLossManager._monitor_symbol_timeframe (src/stop_loss_manager.py,
lines 231-298).  `processed` is the qualifying closed candle found, if any;
`evals` lists the (rule, close price) pairs passed to _check_stop_loss_trigger. -/
structure MonitorStepResult where
  last_kline_close_time : List (String × ℕ)
  processed : Option Kline
  evals : List (StopLossOrder × ℚ)
deriving DecidableEq, Repr

/-- One iteration of StopLossManager._monitor_symbol_timeframe for the
(symbol, timeframe, side) group: filter the persisted rules to the group; exit
if no rules or no cached position; otherwise select the first fetched candle
that has closed per server time and is strictly newer than the recorded
last-processed close time, record its close time, and evaluate every rule of
the group against its closing price. -/
def monitor_symbol_timeframe_step (symbol timeframe : String) (side : Side)
    (all_orders : List StopLossOrder) (current_positions : List (String × Position))
    (last_map : List (String × ℕ)) (klines : List Kline) (current_time : ℕ) :
    MonitorStepResult :=
  -- orders := the group's rules; last_processed := self.last_kline_close_time.get(key, 0)
  if (all_orders.filter
      (fun o => o.symbol = symbol ∧ o.timeframe = timeframe ∧ o.side = side)).isEmpty then
    ⟨last_map, none, []⟩
  else if (dictGet (positionKey symbol side) current_positions).isNone then
    ⟨last_map, none, []⟩
  else
    match klines.find?
        (fun k => decide (k.close_time ≤ current_time ∧
          (dictGet (klineKey symbol timeframe) last_map).getD 0 < k.close_time)) with
    | none => ⟨last_map, none, []⟩
    | some k =>
      ⟨dictUpsert (klineKey symbol timeframe) k.close_time last_map, some k,
       (all_orders.filter
         (fun o => o.symbol = symbol ∧ o.timeframe = timeframe ∧ o.side = side)).map
         (fun o => (o, k.close))⟩

theorem monitor_step_processed_spec (symbol timeframe : String) (side : Side)
    (all_orders : List StopLossOrder) (current_positions : List (String × Position))
    (last_map : List (String × ℕ)) (klines : List Kline) (current_time : ℕ) (k : Kline)
    (h : (monitor_symbol_timeframe_step symbol timeframe side all_orders current_positions
            last_map klines current_time).processed = some k) :
    k.close_time ≤ current_time ∧
    (dictGet (klineKey symbol timeframe) last_map).getD 0 < k.close_time ∧
    dictGet (klineKey symbol timeframe)
      (monitor_symbol_timeframe_step symbol timeframe side all_orders current_positions
        last_map klines current_time).last_kline_close_time = some k.close_time := by
  unfold monitor_symbol_timeframe_step at h ⊢
  split_ifs at h ⊢ with h1 h2
  cases hf : klines.find?
      (fun k => decide (k.close_time ≤ current_time ∧
        (dictGet (klineKey symbol timeframe) last_map).getD 0 < k.close_time)) with
  | none =>
    rw [hf] at h
    exact Option.noConfusion h
  | some k' =>
    rw [hf] at h
    have hk : k' = k := Option.some.inj h
    subst hk
    have hp := List.find?_some hf
    simp only [decide_eq_true_eq] at hp
    refine ⟨hp.1, hp.2, ?_⟩
    show dictGet (klineKey symbol timeframe)
      (dictUpsert (klineKey symbol timeframe) k'.close_time last_map) = some k'.close_time
    simp [dictGet_dictUpsert]

theorem monitor_step_evals_nil_of_stale (symbol timeframe : String) (side : Side)
    (all_orders : List StopLossOrder) (current_positions : List (String × Position))
    (last_map : List (String × ℕ)) (klines : List Kline) (current_time : ℕ) (t : ℕ)
    (hm : dictGet (klineKey symbol timeframe) last_map = some t)
    (hk : ∀ x ∈ klines, x.close_time ≤ t) :
    (monitor_symbol_timeframe_step symbol timeframe side all_orders current_positions
        last_map klines current_time).evals = [] := by
  unfold monitor_symbol_timeframe_step
  have hf : klines.find?
      (fun k => decide (k.close_time ≤ current_time ∧
        (dictGet (klineKey symbol timeframe) last_map).getD 0 < k.close_time)) = none := by
    rw [List.find?_eq_none]
    intro x hx
    simp only [decide_eq_true_eq, not_and, not_lt, hm, Option.getD_some]
    intro _
    exact hk x hx
  split_ifs with h1 h2
  · rfl
  · rfl
  · rw [hf]

theorem monitor_step_processed_gt (symbol timeframe : String) (side : Side)
    (all_orders : List StopLossOrder) (current_positions : List (String × Position))
    (last_map : List (String × ℕ)) (klines : List Kline) (current_time : ℕ) (t : ℕ) (k : Kline)
    (hm : dictGet (klineKey symbol timeframe) last_map = some t)
    (h : (monitor_symbol_timeframe_step symbol timeframe side all_orders current_positions
            last_map klines current_time).processed = some k) :
    t < k.close_time := by
  have := (monitor_step_processed_spec symbol timeframe side all_orders current_positions
    last_map klines current_time k h).2.1
  rwa [hm, Option.getD_some] at this

/-- C3: For every (instrument, timeframe) pair, a given candle close time is
evaluated at most once: the monitor records a qualifying candle's close time as
processed before evaluating, only considers candles whose close time has passed
per server time and is strictly greater than the recorded last-processed close
time, so processing the same close time a second time evaluates no rules. -/
theorem C3_close_time_evaluated_at_most_once
    (symbol timeframe : String) (side : Side) (all_orders : List StopLossOrder)
    (current_positions : List (String × Position)) (last_map : List (String × ℕ))
    (klines : List Kline) (current_time : ℕ) (k : Kline)
    (h : (monitor_symbol_timeframe_step symbol timeframe side all_orders current_positions
            last_map klines current_time).processed = some k) :
    k.close_time ≤ current_time ∧
    (dictGet (klineKey symbol timeframe) last_map).getD 0 < k.close_time ∧
    (∀ all_orders2 positions2 klines2 current_time2,
      (∀ x ∈ klines2, x.close_time ≤ k.close_time) →
      (monitor_symbol_timeframe_step symbol timeframe side all_orders2 positions2
         (monitor_symbol_timeframe_step symbol timeframe side all_orders current_positions
           last_map klines current_time).last_kline_close_time
         klines2 current_time2).evals = []) := by
  have hs := monitor_step_processed_spec symbol timeframe side all_orders current_positions
    last_map klines current_time k h
  exact ⟨hs.1, hs.2.1, fun all_orders2 positions2 klines2 current_time2 hall =>
    monitor_step_evals_nil_of_stale symbol timeframe side all_orders2 positions2 _
      klines2 current_time2 k.close_time hs.2.2 hall⟩

/-- Concrete inputs for monitor-loop witnesses. -/
def wOrderLong : StopLossOrder := ⟨1, "BTCUSDT", Side.LONG, 100, "15m", none⟩

def wPosLong : Position := ⟨"BTCUSDT", Side.LONG, 1, 50, 0, 10, 20⟩

def wCacheLong : List (String × Position) := [(positionKey "BTCUSDT" Side.LONG, wPosLong)]

def wKline : Kline := ⟨0, 99, 99, 99, 99, 0, 1000⟩

/-- Witness for C3: the first pass over the candle closing at time 1000
processes it; a second pass over the same candle evaluates no rules. -/
theorem C3_close_time_evaluated_at_most_once_witness :
    (monitor_symbol_timeframe_step "BTCUSDT" "15m" Side.LONG [wOrderLong] wCacheLong
       [] [wKline] 1000).processed = some wKline ∧
    (monitor_symbol_timeframe_step "BTCUSDT" "15m" Side.LONG [wOrderLong] wCacheLong
       (monitor_symbol_timeframe_step "BTCUSDT" "15m" Side.LONG [wOrderLong] wCacheLong
         [] [wKline] 1000).last_kline_close_time
       [wKline] 2000).evals = [] :=
  ⟨by decide,
   (C3_close_time_evaluated_at_most_once "BTCUSDT" "15m" Side.LONG [wOrderLong] wCacheLong
      [] [wKline] 1000 wKline (by decide)).2.2 [wOrderLong] wCacheLong [wKline] 2000
      (by decide)⟩

/-- C10: The last-processed close-time guard self.last_kline_close_time is
keyed by f"{symbol}_{timeframe}" only, omitting the side: when a LONG-side
monitor group and a SHORT-side monitor group both run for the same
(instrument, timeframe), a qualifying candle close time is consumed by
whichever group records it first, and the other group's subsequent pass never
evaluates its rules against that candle (any candle it still processes is
strictly newer). -/
theorem C10_close_time_guard_shared_across_sides
    (symbol timeframe : String) (sideA sideB : Side) (all_orders : List StopLossOrder)
    (current_positions : List (String × Position)) (last_map : List (String × ℕ))
    (klines : List Kline) (current_time : ℕ) (k : Kline)
    (h : (monitor_symbol_timeframe_step symbol timeframe sideA all_orders current_positions
            last_map klines current_time).processed = some k) :
    (∀ all_orders2 positions2 klines2 current_time2 k',
      (monitor_symbol_timeframe_step symbol timeframe sideB all_orders2 positions2
         (monitor_symbol_timeframe_step symbol timeframe sideA all_orders current_positions
           last_map klines current_time).last_kline_close_time
         klines2 current_time2).processed = some k' →
      k.close_time < k'.close_time) ∧
    (∀ all_orders2 positions2 klines2 current_time2,
      (∀ x ∈ klines2, x.close_time ≤ k.close_time) →
      (monitor_symbol_timeframe_step symbol timeframe sideB all_orders2 positions2
         (monitor_symbol_timeframe_step symbol timeframe sideA all_orders current_positions
           last_map klines current_time).last_kline_close_time
         klines2 current_time2).evals = []) := by
  have hs := monitor_step_processed_spec symbol timeframe sideA all_orders current_positions
    last_map klines current_time k h
  constructor
  · intro all_orders2 positions2 klines2 current_time2 k' h2
    exact monitor_step_processed_gt symbol timeframe sideB all_orders2 positions2 _
      klines2 current_time2 k.close_time k' hs.2.2 h2
  · intro all_orders2 positions2 klines2 current_time2 hall
    exact monitor_step_evals_nil_of_stale symbol timeframe sideB all_orders2 positions2 _
      klines2 current_time2 k.close_time hs.2.2 hall

/-- Concrete SHORT-side inputs for the C10 witness. -/
def wOrderShort : StopLossOrder := ⟨2, "BTCUSDT", Side.SHORT, 98, "15m", none⟩

def wPosShort : Position := ⟨"BTCUSDT", Side.SHORT, 1, 50, 0, 10, 20⟩

def wCacheShort : List (String × Position) := [(positionKey "BTCUSDT" Side.SHORT, wPosShort)]

/-- Witness for C10: the LONG group consumes the candle closing at 1000; the
SHORT group, run next on the shared guard map, evaluates none of its rules
against that candle even though its own trigger condition (99 greater or equal
to 98) holds there. -/
theorem C10_close_time_guard_shared_across_sides_witness :
    (monitor_symbol_timeframe_step "BTCUSDT" "15m" Side.LONG [wOrderLong, wOrderShort]
       wCacheLong [] [wKline] 1000).processed = some wKline ∧
    (monitor_symbol_timeframe_step "BTCUSDT" "15m" Side.SHORT [wOrderLong, wOrderShort]
       wCacheShort
       (monitor_symbol_timeframe_step "BTCUSDT" "15m" Side.LONG [wOrderLong, wOrderShort]
         wCacheLong [] [wKline] 1000).last_kline_close_time
       [wKline] 1000).evals = [] :=
  ⟨by decide,
   (C10_close_time_guard_shared_across_sides "BTCUSDT" "15m" Side.LONG Side.SHORT
      [wOrderLong, wOrderShort] wCacheLong [] [wKline] 1000 wKline (by decide)).2
      [wOrderLong, wOrderShort] wCacheShort [wKline] 1000 (by decide)⟩

/-- urllib.parse.urlencode on the parameter dict, as used by
BinanceClient._generate_signature (src/binance_client.py, line 69): the
key=value pairs joined by ampersands, in dict insertion order. -/
def encodeParams (params : List (String × String)) : String :=
  String.intercalate "&" (params.map (fun p => p.1 ++ "=" ++ p.2))

/-- BinanceClient._generate_signature (src/binance_client.py, lines 67-75):
an HMAC-SHA256 hex digest of the urlencoded parameter string under the API
secret.  The HMAC-SHA256 primitive itself is kept abstract as a function
argument taking the secret and the message. -/
def generate_signature (hmac_sha256 : String → String → String) (api_secret : String)
    (params : List (String × String)) : String :=
  hmac_sha256 api_secret (encodeParams params)

/-- The parameter set sent on one attempt of the signed-request retry loop in
BinanceClient._request (src/binance_client.py, lines 83-94): start from a copy
of the original caller parameters, pop any signature and timestamp, insert the
freshly generated timestamp `ts`, then append the signature computed over
exactly that parameter set. -/
def request_attempt_params (hmac_sha256 : String → String → String) (api_secret : String)
    (original : List (String × String)) (ts : ℕ) : List (String × String) :=
  (eraseKey "signature" (eraseKey "timestamp" original) ++ [("timestamp", toString ts)]) ++
    [("signature", generate_signature hmac_sha256 api_secret
      (eraseKey "signature" (eraseKey "timestamp" original) ++ [("timestamp", toString ts)]))]

theorem mem_eraseKey {α : Type} (k : String) (ps : List (String × α)) (p : String × α)
    (h : p ∈ eraseKey k ps) : p ∈ ps ∧ p.1 ≠ k := by
  unfold eraseKey at h
  have := List.mem_filter.mp h
  refine ⟨this.1, ?_⟩
  simpa using this.2

theorem eraseKey_of_all_ne {α : Type} (k : String) (ps : List (String × α))
    (h : ∀ p ∈ ps, p.1 ≠ k) : eraseKey k ps = ps := by
  unfold eraseKey
  rw [List.filter_eq_self]
  intro p hp
  simpa using h p hp

/-- C7: For every signed REST request, on every attempt including retries, the
attached signature is an HMAC-SHA256 over exactly the parameter set sent in
that attempt with a freshly generated timestamp; the signed parameter set never
contains a signature or timestamp produced by a previous attempt.  The last
conjunct shows an attempt built from a previous attempt's sent parameters is
identical to one built from the original parameters: stale entries are fully
scrubbed before signing. -/
theorem C7_signature_recomputed_per_attempt (hmac_sha256 : String → String → String)
    (api_secret : String) (original : List (String × String)) (ts ts2 : ℕ) :
    request_attempt_params hmac_sha256 api_secret original ts =
      (eraseKey "signature" (eraseKey "timestamp" original) ++ [("timestamp", toString ts)]) ++
      [("signature", generate_signature hmac_sha256 api_secret
        (eraseKey "signature" (eraseKey "timestamp" original) ++
          [("timestamp", toString ts)]))] ∧
    (request_attempt_params hmac_sha256 api_secret original ts).filter
        (fun p => p.1 = "timestamp") = [("timestamp", toString ts)] ∧
    (request_attempt_params hmac_sha256 api_secret original ts).filter
        (fun p => p.1 = "signature") =
      [("signature", generate_signature hmac_sha256 api_secret
        (eraseKey "signature" (eraseKey "timestamp" original) ++
          [("timestamp", toString ts)]))] ∧
    request_attempt_params hmac_sha256 api_secret
        (request_attempt_params hmac_sha256 api_secret original ts) ts2 =
      request_attempt_params hmac_sha256 api_secret original ts2 := by
  have hbase : ∀ p ∈ eraseKey "signature" (eraseKey "timestamp" original),
      p.1 ≠ "timestamp" ∧ p.1 ≠ "signature" := by
    intro p hp
    have h1 := mem_eraseKey _ _ _ hp
    have h2 := mem_eraseKey _ _ _ h1.1
    exact ⟨h2.2, h1.2⟩
  have hbase_filter_ts : (eraseKey "signature" (eraseKey "timestamp" original)).filter
      (fun p => p.1 = "timestamp") = [] := by
    rw [List.filter_eq_nil_iff]
    intro p hp
    simpa using (hbase p hp).1
  have hbase_filter_sig : (eraseKey "signature" (eraseKey "timestamp" original)).filter
      (fun p => p.1 = "signature") = [] := by
    rw [List.filter_eq_nil_iff]
    intro p hp
    simpa using (hbase p hp).2
  refine ⟨rfl, ?_, ?_, ?_⟩
  · unfold request_attempt_params
    rw [List.filter_append, List.filter_append, hbase_filter_ts]
    simp
  · unfold request_attempt_params
    rw [List.filter_append, List.filter_append, hbase_filter_sig]
    simp
  · have h1 : eraseKey "timestamp" (eraseKey "signature" (eraseKey "timestamp" original)) =
        eraseKey "signature" (eraseKey "timestamp" original) :=
      eraseKey_of_all_ne _ _ (fun p hp => (hbase p hp).1)
    have h2 : eraseKey "signature" (eraseKey "signature" (eraseKey "timestamp" original)) =
        eraseKey "signature" (eraseKey "timestamp" original) :=
      eraseKey_of_all_ne _ _ (fun p hp => (hbase p hp).2)
    have hscrub : eraseKey "signature" (eraseKey "timestamp"
        (request_attempt_params hmac_sha256 api_secret original ts)) =
        eraseKey "signature" (eraseKey "timestamp" original) := by
      show eraseKey "signature" (eraseKey "timestamp"
        (eraseKey "signature" (eraseKey "timestamp" original) ++ [("timestamp", toString ts)] ++
          [("signature", generate_signature hmac_sha256 api_secret
            (eraseKey "signature" (eraseKey "timestamp" original) ++
              [("timestamp", toString ts)]))])) =
        eraseKey "signature" (eraseKey "timestamp" original)
      rw [show (eraseKey "signature" (eraseKey "timestamp" original) ++
            [("timestamp", toString ts)] ++
            [("signature", generate_signature hmac_sha256 api_secret
              (eraseKey "signature" (eraseKey "timestamp" original) ++
                [("timestamp", toString ts)]))]) =
          eraseKey "signature" (eraseKey "timestamp" original) ++
            ([("timestamp", toString ts)] ++
             [("signature", generate_signature hmac_sha256 api_secret
              (eraseKey "signature" (eraseKey "timestamp" original) ++
                [("timestamp", toString ts)]))]) from List.append_assoc _ _ _]
      rw [show ∀ (l1 l2 : List (String × String)) (k : String),
            eraseKey k (l1 ++ l2) = eraseKey k l1 ++ eraseKey k l2 from
          fun l1 l2 k => List.filter_append _ _]
      rw [h1]
      rw [show eraseKey "timestamp" ([("timestamp", toString ts)] ++
          [("signature", generate_signature hmac_sha256 api_secret
            (eraseKey "signature" (eraseKey "timestamp" original) ++
              [("timestamp", toString ts)]))]) =
          [("signature", generate_signature hmac_sha256 api_secret
            (eraseKey "signature" (eraseKey "timestamp" original) ++
              [("timestamp", toString ts)]))] from by simp [eraseKey]]
      rw [show ∀ (l1 l2 : List (String × String)) (k : String),
            eraseKey k (l1 ++ l2) = eraseKey k l1 ++ eraseKey k l2 from
          fun l1 l2 k => List.filter_append _ _]
      rw [h2]
      simp [eraseKey]
    have hstep : request_attempt_params hmac_sha256 api_secret
        (request_attempt_params hmac_sha256 api_secret original ts) ts2 =
        (eraseKey "signature" (eraseKey "timestamp"
            (request_attempt_params hmac_sha256 api_secret original ts)) ++
          [("timestamp", toString ts2)]) ++
        [("signature", generate_signature hmac_sha256 api_secret
          (eraseKey "signature" (eraseKey "timestamp"
              (request_attempt_params hmac_sha256 api_secret original ts)) ++
            [("timestamp", toString ts2)]))] := rfl
    rw [hstep, hscrub]
    rfl

/-- Keys of the form f"{symbol}_{side}" determine the pair: the side suffix is
"LONG" or "SHORT", neither containing an underscore, so the composite string
key identifies exactly one (symbol, side). -/
theorem positionKey_inj (s1 s2 : String) (d1 d2 : Side)
    (h : positionKey s1 d1 = positionKey s2 d2) : s1 = s2 ∧ d1 = d2 := by
  cases d1 <;> cases d2 <;>
    simp only [positionKey, Side.str] at h <;>
    have hd := congrArg (fun s => s.data.reverse) h <;>
    simp only [String.data_append, List.reverse_append] at hd
  · refine ⟨?_, rfl⟩
    simp at hd
    have := congrArg List.reverse hd
    simp at this
    exact String.ext this
  · exfalso
    simp at hd
  · exfalso
    simp at hd
  · refine ⟨?_, rfl⟩
    simp at hd
    have := congrArg List.reverse hd
    simp at this
    exact String.ext this

/-- Python str.rsplit(sep, 1) on an underscore, as used to recover (symbol,
side) from a composite cache key (src/binance_client.py, lines 389-390 and
545): the part before the last underscore and the part after it. -/
def rsplitKey (s : String) : String × String :=
  (String.mk (((s.data.reverse).dropWhile (fun c => c ≠ '_')).drop 1).reverse,
   String.mk ((s.data.reverse).takeWhile (fun c => c ≠ '_')).reverse)

theorem rsplitKey_positionKey (s : String) (d : Side) :
    rsplitKey (positionKey s d) = (s, d.str) := by
  cases d <;>
    simp [rsplitKey, positionKey, Side.str, String.data_append, List.takeWhile_cons,
      List.dropWhile_cons]

/-- The dict comprehension building the side-aware position map in
StopLossManager.add_stop_loss_order (src/stop_loss_manager.py, line 524):
for a duplicated key, the last entry wins, as in a Python dict comprehension. -/
def buildPositionDict (positions : List Position) : List (String × Position) :=
  positions.foldl (fun d p => dictUpsert (positionKey p.symbol p.side) p d) []

theorem dictGet_foldl_upsert (positions : List Position) (init : List (String × Position))
    (key : String) :
    dictGet key (positions.foldl
        (fun d p => dictUpsert (positionKey p.symbol p.side) p d) init) =
      (positions.reverse.find?
        (fun p => decide (positionKey p.symbol p.side = key))).or (dictGet key init) := by
  induction positions generalizing init with
  | nil => simp
  | cons p ps ih =>
    rw [List.foldl_cons, ih, List.reverse_cons, List.find?_append]
    by_cases hk : positionKey p.symbol p.side = key
    · simp [dictGet_dictUpsert, hk, Option.or_assoc, List.find?]
    · have hk2 : ¬ key = positionKey p.symbol p.side := fun hh => hk hh.symm
      simp [dictGet_dictUpsert, hk, hk2, Option.or_assoc, List.find?]

theorem dictGet_buildPositionDict_mem (positions : List Position) (key : String) (p : Position)
    (h : dictGet key (buildPositionDict positions) = some p) :
    p ∈ positions ∧ positionKey p.symbol p.side = key := by
  unfold buildPositionDict at h
  rw [dictGet_foldl_upsert] at h
  simp only [dictGet, Option.or_none] at h
  refine ⟨List.mem_reverse.mp (List.mem_of_find?_eq_some h), ?_⟩
  have := List.find?_some h
  simpa using this

theorem dictGet_buildPositionDict_isSome (positions : List Position) (key : String)
    (h : ∃ p ∈ positions, positionKey p.symbol p.side = key) :
    (dictGet key (buildPositionDict positions)).isSome := by
  unfold buildPositionDict
  rw [dictGet_foldl_upsert]
  obtain ⟨p, hp, hkey⟩ := h
  have : (positions.reverse.find?
      (fun p => decide (positionKey p.symbol p.side = key))).isSome := by
    rw [List.find?_isSome]
    exact ⟨p, List.mem_reverse.mpr hp, by simpa using hkey⟩
  cases hf : positions.reverse.find? (fun p => decide (positionKey p.symbol p.side = key)) with
  | none => rw [hf] at this; cases this
  | some q => simp [hf]

/-- StopLossManager.add_stop_loss_order (src/stop_loss_manager.py, lines 519-542)
composed with Database.add_stop_loss (src/database.py): fetch live positions,
key them by f"{symbol}_{side}", reject with a ValueError (the `.error` branch)
when the key is absent or the found position's side differs, else persist the
rule with the next autoincrement id and return that id.  `db` is the stop-loss
table; `next_id` the next autoincrement value. -/
def add_stop_loss_order (positions : List Position) (db : List StopLossOrder) (next_id : ℕ)
    (symbol : String) (side : Side) (stop_price : ℚ) (timeframe : String)
    (quantity : Option ℚ) : Except String (List StopLossOrder × ℕ) :=
  match dictGet (positionKey symbol side) (buildPositionDict positions) with
  | none => .error ("交易对 " ++ symbol ++ " 的 " ++ side.str ++ " 方向没有持仓")
  | some position =>
    if position.side ≠ side then
      .error ("持仓方向不匹配: 持仓为 " ++ position.side.str ++ "，止损为 " ++ side.str)
    else
      .ok (db ++ [⟨next_id, symbol, side, stop_price, timeframe, quantity⟩], next_id)

/-- C9: add_stop_loss_order persists a new rule and returns its id exactly when
a just-fetched live position exists for the (symbol, side) key with a matching
side; otherwise it raises a validation error synchronously and persists
nothing (the database insert is only reached on the success path). -/
theorem C9_add_requires_live_matching_position
    (positions : List Position) (db : List StopLossOrder) (next_id : ℕ)
    (symbol : String) (side : Side) (stop_price : ℚ) (timeframe : String)
    (quantity : Option ℚ) :
    ((∃ out, add_stop_loss_order positions db next_id symbol side stop_price timeframe
        quantity = .ok out) ↔ ∃ p ∈ positions, p.symbol = symbol ∧ p.side = side) ∧
    (∀ db2 rid, add_stop_loss_order positions db next_id symbol side stop_price timeframe
        quantity = .ok (db2, rid) →
      db2 = db ++ [⟨next_id, symbol, side, stop_price, timeframe, quantity⟩] ∧
      rid = next_id) := by
  cases hv : dictGet (positionKey symbol side) (buildPositionDict positions) with
  | none =>
    constructor
    · constructor
      · rintro ⟨out, hout⟩
        simp [add_stop_loss_order, hv] at hout
      · rintro ⟨p, hp, hsym, hside⟩
        have := dictGet_buildPositionDict_isSome positions (positionKey symbol side)
          ⟨p, hp, by rw [hsym, hside]⟩
        rw [hv] at this
        cases this
    · intro db2 rid h
      simp [add_stop_loss_order, hv] at h
  | some q =>
    have hq := dictGet_buildPositionDict_mem positions _ q hv
    have hqq := positionKey_inj _ _ _ _ hq.2
    have hside : ¬ q.side ≠ side := by simp [hqq.2]
    constructor
    · constructor
      · intro _
        exact ⟨q, hq.1, hqq.1, hqq.2⟩
      · intro _
        refine ⟨(db ++ [⟨next_id, symbol, side, stop_price, timeframe, quantity⟩], next_id), ?_⟩
        simp [add_stop_loss_order, hv, hside]
    · intro db2 rid h
      simp [add_stop_loss_order, hv, hside] at h
      exact ⟨h.1.symm, h.2.symm⟩

/-- Witness for C9: with a live LONG position on "BTCUSDT", adding a LONG rule
for "BTCUSDT" succeeds. -/
theorem C9_add_requires_live_matching_position_witness :
    ∃ out, add_stop_loss_order [wPosLong] [] 1 "BTCUSDT" Side.LONG 100 "15m" none =
      .ok out :=
  (C9_add_requires_live_matching_position [wPosLong] [] 1 "BTCUSDT" Side.LONG 100 "15m"
    none).1.mpr ⟨wPosLong, List.mem_singleton.mpr rfl, rfl, rfl⟩

/-- Payload of the on_position_closed callback (src/binance_client.py,
lines 393-398 and 550-555): symbol, previous side string, and previous amount. -/
structure PositionClosedEvent where
  symbol : String
  previous_side : String
  previous_amount : ℚ
deriving DecidableEq, Repr

/-- Notification a reconciliation pass could emit.  The source only ever calls
on_position_closed; discovering a remote position missing from the cache leads
to logger.warning alone (src/binance_client.py, lines 400-403), so the `opened`
constructor exists in the model but is never produced by the embedding. -/
inductive ReconcileEvent
  | closed (e : PositionClosedEvent)
  | opened (key : String) (amt : ℚ)
deriving DecidableEq, Repr

/-- The snapshot dict built by BinanceClient._reconcile_positions
(src/binance_client.py, lines 380-384): key f"{symbol}_{side}", amount signed
(negated for SHORT). -/
def buildSnapshot (positions : List Position) : List (String × ℚ) :=
  positions.foldl (fun d p => dictUpsert (positionKey p.symbol p.side)
    (if p.side = .LONG then p.position_amt else -p.position_amt) d) []

/-- BinanceClient._reconcile_positions (src/binance_client.py, lines 376-410):
for every cached key carrying a non-zero amount and absent from the snapshot,
delete it and emit on_position_closed with symbol/side recovered via
rsplit('_', 1) and previous_amount = abs(old); snapshot keys absent from the
cache are merely logged; then the cache is replaced by the snapshot. -/
def reconcile_positions (cache : List (String × ℚ)) (positions : List Position) :
    List (String × ℚ) × List ReconcileEvent :=
  (buildSnapshot positions,
   (cache.filter (fun kv => dictGet kv.1 (buildSnapshot positions) = none ∧ kv.2 ≠ 0)).map
     (fun kv => .closed ⟨(rsplitKey kv.1).1, (rsplitKey kv.1).2, pyAbs kv.2⟩))

/-- The value of the 'ps' field of an ACCOUNT_UPDATE position entry
(pos.get('ps', 'BOTH') in the source). -/
inductive PosSideField
  | LONG
  | SHORT
  | BOTH
deriving DecidableEq, Repr

/-- One entry of data['a']['P'] in an ACCOUNT_UPDATE stream event
(src/binance_client.py, lines 508-512 and 566-569), with the source's get
defaults already applied. -/
structure StreamPosition where
  s : String
  pa : ℚ
  ps : PosSideField
  ep : ℚ
  up : ℚ
  lv : ℤ
  lp : ℚ
deriving DecidableEq, Repr

/-- An ACCOUNT_UPDATE stream event: reason code data['a']['m'] and position
array data['a']['P']. -/
structure AccountUpdateEvent where
  m : String
  P : List StreamPosition
deriving DecidableEq, Repr

/-- Callbacks invoked while handling a user-data stream event:
on_position_closed, on_position_update, and the raw forward to
on_account_update. -/
inductive UserDataEvent
  | positionClosed (e : PositionClosedEvent)
  | positionUpdate (info : Position)
  | accountUpdate
deriving DecidableEq, Repr

/-- Direction resolution for one position entry (src/binance_client.py,
lines 512-531): explicit ps field unless BOTH; else the sign of pa; for pa = 0
infer from which cached key exists for the symbol; unresolvable entries are
skipped. -/
def resolveSide (cache : List (String × ℚ)) (pos : StreamPosition) : Option Side :=
  match pos.ps with
  | .LONG => some .LONG
  | .SHORT => some .SHORT
  | .BOTH =>
    if pos.pa > 0 then some .LONG
    else if pos.pa < 0 then some .SHORT
    else if (dictGet (positionKey pos.s .LONG) cache).isSome then some .LONG
    else if (dictGet (positionKey pos.s .SHORT) cache).isSome then some .SHORT
    else none

/-- The current_positions dict built from the update's position entries
(src/binance_client.py, lines 505-538): key f"{symbol}_{side}", value
(new amount, resolved side, raw entry); unresolvable entries skipped. -/
def buildStreamPositions (cache : List (String × ℚ)) (ps : List StreamPosition) :
    List (String × (ℚ × Side × StreamPosition)) :=
  (ps.filterMap (fun pos => (resolveSide cache pos).map (fun side => (pos, side)))).foldl
    (fun d x => dictUpsert (positionKey x.1.s x.2) (x.1.pa, x.2, x.1) d) []

/-- The per-entry diff of the stream handler (src/binance_client.py,
lines 540-573): non-zero cached amount going to zero emits position-closed with
the absolute prior amount; a non-zero new amount that is fresh or changed in
magnitude emits position-update; otherwise nothing. -/
def entryEvent (cache : List (String × ℚ)) (entry : String × (ℚ × Side × StreamPosition)) :
    Option UserDataEvent :=
  if (dictGet entry.1 cache).getD 0 ≠ 0 ∧ entry.2.1 = 0 then
    some (.positionClosed ⟨(rsplitKey entry.1).1, entry.2.2.1.str,
      pyAbs ((dictGet entry.1 cache).getD 0)⟩)
  else if entry.2.1 ≠ 0 ∧ ((dictGet entry.1 cache).getD 0 = 0 ∨
      pyAbs ((dictGet entry.1 cache).getD 0) ≠ pyAbs entry.2.1) then
    some (.positionUpdate ⟨(rsplitKey entry.1).1, entry.2.2.1, pyAbs entry.2.1,
      entry.2.2.2.ep, entry.2.2.2.up, entry.2.2.2.lv, entry.2.2.2.lp⟩)
  else none

/-- The cache commit loop of the stream handler (src/binance_client.py,
lines 575-583): a zero amount pops the key, a non-zero amount upserts it. -/
def applyCacheUpdates (current : List (String × (ℚ × Side × StreamPosition)))
    (cache : List (String × ℚ)) : List (String × ℚ) :=
  current.foldl (fun c entry => if entry.2.1 = 0 then eraseKey entry.1 c
    else dictUpsert entry.1 entry.2.1 c) cache

/-- Net effect of BinanceClient._handle_user_data on an ACCOUNT_UPDATE event. -/
structure HandleResult where
  position_cache : List (String × ℚ)
  events : List UserDataEvent
deriving DecidableEq, Repr

/-- The ACCOUNT_UPDATE branch of BinanceClient._handle_user_data
(src/binance_client.py, lines 482-586): a FUNDING_FEE reason code or an empty
position array forwards the raw event and skips all position diffing; otherwise
diff each named entry against the cache, emit the per-entry events in order,
commit the new amounts, and finally forward the raw event. -/
def handle_account_update (cache : List (String × ℚ)) (ev : AccountUpdateEvent) :
    HandleResult :=
  if ev.m = "FUNDING_FEE" then ⟨cache, [.accountUpdate]⟩
  else if ev.P = [] then ⟨cache, [.accountUpdate]⟩
  else
    ⟨applyCacheUpdates (buildStreamPositions cache ev.P) cache,
     (buildStreamPositions cache ev.P).filterMap (entryEvent cache) ++ [.accountUpdate]⟩

/-- C8: For every ACCOUNT_UPDATE stream event whose reason code is FUNDING_FEE,
or whose position array is empty, no position diffing is performed: no
position-update or position-closed event is emitted, the position cache is left
unchanged, and the raw event is still forwarded to the account-update
observer. -/
theorem C8_funding_fee_or_empty_skips_diff (cache : List (String × ℚ))
    (ev : AccountUpdateEvent) (h : ev.m = "FUNDING_FEE" ∨ ev.P = []) :
    handle_account_update cache ev = ⟨cache, [.accountUpdate]⟩ := by
  rcases h with h | h
  · simp [handle_account_update, h]
  · by_cases h2 : ev.m = "FUNDING_FEE" <;> simp [handle_account_update, h, h2]

/-- Witness for C8: a FUNDING_FEE event naming "BTCUSDT", against a non-empty
cache, leaves the cache alone and only forwards the raw event. -/
theorem C8_funding_fee_or_empty_skips_diff_witness :
    handle_account_update [(positionKey "BTCUSDT" Side.LONG, 1)]
      ⟨"FUNDING_FEE", [⟨"BTCUSDT", 0, .BOTH, 0, 0, 1, 0⟩]⟩ =
      ⟨[(positionKey "BTCUSDT" Side.LONG, 1)], [.accountUpdate]⟩ :=
  C8_funding_fee_or_empty_skips_diff _ _ (Or.inl rfl)

theorem Side.str_inj (d1 d2 : Side) (h : d1.str = d2.str) : d1 = d2 := by
  cases d1 <;> cases d2 <;> first | rfl | exact absurd h (by decide)

/-- Boolean matcher for a closed notification of a given symbol and side. -/
def isClosedFor (sym sideStr : String) : ReconcileEvent → Bool
  | .closed e => sym = e.symbol ∧ sideStr = e.previous_side
  | .opened _ _ => false

/-- C5 counterexample: with an empty cache and one live LONG position on
"BTCUSDT", the snapshot contains a key absent from the cache, yet the
reconciliation pass emits no notification at all — in particular not the
opened notification the claim requires exactly once per new key (the source
only logs such keys, src/binance_client.py lines 400-403). -/
theorem C5_no_opened_notification_counterexample :
    dictGet (positionKey "BTCUSDT" Side.LONG) (buildSnapshot [wPosLong]) = some 1 ∧
    dictGet (positionKey "BTCUSDT" Side.LONG) ([] : List (String × ℚ)) = none ∧
    (reconcile_positions [] [wPosLong]).2 = [] := by
  refine ⟨by decide, rfl, rfl⟩

/-- C5 amended: every reconciliation pass diffs the REST snapshot against the
existing cache rather than blindly overwriting: for each cached
(instrument, side) key with non-zero amount absent from the snapshot exactly
one position-closed notification is emitted, the cache is then set to the
snapshot — but a snapshot key absent from the cache produces no notification
(it is only detected and logged). -/
theorem C5_reconcile_diff_events (cache : List (String × ℚ)) (positions : List Position)
    (hnd : (cache.map Prod.fst).Nodup)
    (hkeys : ∀ kv ∈ cache, ∃ s d, kv.1 = positionKey s d) :
    (reconcile_positions cache positions).1 = buildSnapshot positions ∧
    (∀ k a, ReconcileEvent.opened k a ∉ (reconcile_positions cache positions).2) ∧
    (∀ sym side old, (positionKey sym side, old) ∈ cache → old ≠ 0 →
      dictGet (positionKey sym side) (buildSnapshot positions) = none →
      (reconcile_positions cache positions).2.filter (isClosedFor sym side.str) =
        [.closed ⟨sym, side.str, pyAbs old⟩]) := by
  refine ⟨rfl, ?_, ?_⟩
  · intro k a hmem
    unfold reconcile_positions at hmem
    obtain ⟨kv, _, hkv⟩ := List.mem_map.mp hmem
    cases hkv
  · intro sym side old hmem hold hsnap
    have hGP : ∀ kv ∈ cache,
        (isClosedFor sym side.str
            (ReconcileEvent.closed ⟨(rsplitKey kv.1).1, (rsplitKey kv.1).2, pyAbs kv.2⟩) &&
          decide (dictGet kv.1 (buildSnapshot positions) = none ∧ kv.2 ≠ 0)) =
        decide (kv.1 = positionKey sym side) := by
      intro kv hkv
      obtain ⟨s', d', hk⟩ := hkeys kv hkv
      have hrk : rsplitKey kv.1 = (s', d'.str) := by
        rw [hk]
        exact rsplitKey_positionKey _ _
      by_cases heq : kv.1 = positionKey sym side
      · have hval : kv = (positionKey sym side, old) := by
          have hmem2 : kv ∈ cache.filter (fun p => p.1 = positionKey sym side) :=
            List.mem_filter.mpr ⟨hkv, by simpa using heq⟩
          rw [filter_key_eq_singleton cache (positionKey sym side) old hnd hmem] at hmem2
          simpa using hmem2
        subst hval
        simp [isClosedFor, rsplitKey_positionKey, hsnap, hold]
      · rw [decide_eq_false heq, Bool.and_eq_false_iff]
        left
        simp only [isClosedFor, hrk]
        rw [decide_eq_false]
        rintro ⟨hsym, hside⟩
        have hd : d' = side := (Side.str_inj side d' hside).symm
        have hs : s' = sym := hsym.symm
        exact heq (hk.trans (by rw [hd, hs]))
    have h7 : cache.filter (fun a => a.1 = positionKey sym side) =
        [(positionKey sym side, old)] :=
      filter_key_eq_singleton cache (positionKey sym side) old hnd hmem
    have h8 : List.map (fun kv : String × ℚ => ReconcileEvent.closed
          ⟨(rsplitKey kv.1).1, (rsplitKey kv.1).2, pyAbs kv.2⟩)
        [(positionKey sym side, old)] =
        [ReconcileEvent.closed ⟨sym, side.str, pyAbs old⟩] := by
      simp [rsplitKey_positionKey]
    exact (List.filter_map _ _).trans
      ((congrArg (List.map _) ((List.filter_filter _ _).trans
        ((List.filter_congr hGP).trans h7))).trans h8)

/-- Witness for C5 amended: a cached SHORT position on "ETHUSDT" absent from an
empty snapshot produces exactly one closed notification. -/
theorem C5_reconcile_diff_events_witness :
    (reconcile_positions [(positionKey "ETHUSDT" Side.SHORT, (-2 : ℚ))] []).2.filter
      (isClosedFor "ETHUSDT" (Side.str Side.SHORT)) =
      [ReconcileEvent.closed ⟨"ETHUSDT", Side.str Side.SHORT, pyAbs (-2)⟩] :=
  (C5_reconcile_diff_events [(positionKey "ETHUSDT" Side.SHORT, (-2 : ℚ))] []
    (by decide)
    (fun kv hm => by
      rw [List.mem_singleton] at hm
      exact ⟨"ETHUSDT", Side.SHORT, by rw [hm]⟩)).2.2
    "ETHUSDT" Side.SHORT (-2) (List.mem_singleton.mpr rfl) (by decide) rfl

theorem mem_foldl_upsert_stream (xs : List (StreamPosition × Side))
    (d : List (String × (ℚ × Side × StreamPosition)))
    (hd : ∀ e ∈ d, e.1 = positionKey e.2.2.2.s e.2.2.1)
    (entry : String × (ℚ × Side × StreamPosition))
    (h : entry ∈ xs.foldl
        (fun d x => dictUpsert (positionKey x.1.s x.2) (x.1.pa, x.2, x.1) d) d) :
    entry.1 = positionKey entry.2.2.2.s entry.2.2.1 := by
  induction xs generalizing d with
  | nil => exact hd entry h
  | cons x xs ih =>
    rw [List.foldl_cons] at h
    refine ih _ ?_ h
    intro e he
    rcases mem_dictUpsert _ _ _ _ he with h1 | h1
    · rw [h1]
    · exact hd e h1

/-- Auxiliary invariant: every binding of the stream-handler's current-position
dict has the composite key built from its own entry's symbol and resolved
side. -/
theorem mem_buildStreamPositions (cache : List (String × ℚ)) (ps : List StreamPosition)
    (entry : String × (ℚ × Side × StreamPosition))
    (h : entry ∈ buildStreamPositions cache ps) :
    entry.1 = positionKey entry.2.2.2.s entry.2.2.1 := by
  unfold buildStreamPositions at h
  exact mem_foldl_upsert_stream _ [] (fun e he => absurd he (List.not_mem_nil e)) entry h

/-- C6 counterexample: a cached SHORT position carries the signed amount -2 in
the position cache (reconciliation stores SHORT amounts negated,
src/binance_client.py line 383); when it disappears remotely, the emitted
position-closed event carries previous_amount = abs(-2) = 2, not the prior
signed cached amount -2. -/
theorem C6_signed_amount_counterexample :
    (reconcile_positions [(positionKey "ETHUSDT" Side.SHORT, (-2 : ℚ))] []).2 =
      [ReconcileEvent.closed ⟨"ETHUSDT", "SHORT", 2⟩] ∧
    (2 : ℚ) ≠ (-2 : ℚ) := by
  constructor
  · decide
  · decide

/-- C6 amended: every position-closed event — whether emitted by the stream
handler on a non-zero-to-zero transition or by reconciliation on a cached key
absent from the remote snapshot — carries the ABSOLUTE VALUE of the prior
cached amount of that position (the sign is carried separately by the
previous_side field), not the signed amount. -/
theorem C6_closed_events_carry_absolute_amount :
    (∀ (cache : List (String × ℚ)) (ev : AccountUpdateEvent) (pe : PositionClosedEvent),
      UserDataEvent.positionClosed pe ∈ (handle_account_update cache ev).events →
      ∃ old, dictGet (pe.symbol ++ "_" ++ pe.previous_side) cache = some old ∧ old ≠ 0 ∧
        pe.previous_amount = pyAbs old) ∧
    (∀ (cache : List (String × ℚ)) (positions : List Position) (pe : PositionClosedEvent),
      (∀ kv ∈ cache, ∃ s d, kv.1 = positionKey s d) →
      (cache.map Prod.fst).Nodup →
      ReconcileEvent.closed pe ∈ (reconcile_positions cache positions).2 →
      ∃ old, dictGet (pe.symbol ++ "_" ++ pe.previous_side) cache = some old ∧ old ≠ 0 ∧
        pe.previous_amount = pyAbs old) := by
  constructor
  · intro cache ev pe hmem
    unfold handle_account_update at hmem
    split_ifs at hmem with h1 h2
    · simp at hmem
    · simp at hmem
    · rw [List.mem_append] at hmem
      rcases hmem with hmem | hmem
      swap
      · simp at hmem
      obtain ⟨entry, hentry, heq⟩ := List.mem_filterMap.mp hmem
      have hkey := mem_buildStreamPositions cache ev.P entry hentry
      unfold entryEvent at heq
      split_ifs at heq with hc1 hc2
      · have hpe := UserDataEvent.positionClosed.inj (Option.some.inj heq)
        subst hpe
        refine ⟨(dictGet entry.1 cache).getD 0, ?_, hc1.1, rfl⟩
        show dictGet ((rsplitKey entry.1).1 ++ "_" ++ entry.2.2.1.str) cache =
          some ((dictGet entry.1 cache).getD 0)
        have hreconstruct : (rsplitKey entry.1).1 ++ "_" ++ entry.2.2.1.str = entry.1 := by
          rw [hkey, rsplitKey_positionKey]
          rfl
        rw [hreconstruct]
        cases hg : dictGet entry.1 cache with
        | none =>
          rw [hg] at hc1
          simp at hc1
        | some o => rfl
      · exact absurd (Option.some.inj heq) (by simp)
  · intro cache positions pe hkeys hnd hmem
    unfold reconcile_positions at hmem
    obtain ⟨kv, hkv, hkveq⟩ := List.mem_map.mp hmem
    have hkvf := List.mem_filter.mp hkv
    have hP := hkvf.2
    simp only [decide_eq_true_eq] at hP
    obtain ⟨s', d', hk⟩ := hkeys kv hkvf.1
    have hpe := ReconcileEvent.closed.inj hkveq
    subst hpe
    refine ⟨kv.2, ?_, hP.2, rfl⟩
    show dictGet ((rsplitKey kv.1).1 ++ "_" ++ (rsplitKey kv.1).2) cache = some kv.2
    have hrk : rsplitKey kv.1 = (s', d'.str) := by
      rw [hk]
      exact rsplitKey_positionKey _ _
    rw [hrk]
    show dictGet (positionKey s' d') cache = some kv.2
    rw [← hk]
    exact dictGet_eq_of_mem_nodup cache kv.1 kv.2 hnd hkvf.1

/-- Witness for C6 amended: the event of the counterexample run carries the
absolute value 2 of the prior cached amount -2. -/
theorem C6_closed_events_carry_absolute_amount_witness :
    ∃ old, dictGet ("ETHUSDT" ++ "_" ++ "SHORT")
        [(positionKey "ETHUSDT" Side.SHORT, (-2 : ℚ))] = some old ∧ old ≠ 0 ∧
      (2 : ℚ) = pyAbs old :=
  C6_closed_events_carry_absolute_amount.2
    [(positionKey "ETHUSDT" Side.SHORT, (-2 : ℚ))] [] ⟨"ETHUSDT", "SHORT", 2⟩
    (fun kv hm => by
      rw [List.mem_singleton] at hm
      exact ⟨"ETHUSDT", Side.SHORT, by rw [hm]⟩)
    (by decide) (by decide)
